import Mathlib

/-!
Verification of the classification-and-rendering pipeline of
`rendergitplus.py` against its specification.

The development is a shallow embedding of the Python source.  File-system
effects are made explicit: the on-disk state a single candidate path can
present to the classifier (the outcome of `path.stat().st_size`, the bytes
returned by `path.open("rb").read(8192)`, the outcome of `read_text`) is a
field of `PathState`, and Python exceptions are modelled with `Option` and
`Except`.  The optional external minifier modules are an environment of
optional fallible functions (`MinifyEnv`).  Python's `str.lower` is modelled
by the ASCII case mapping `pyLower`; every extension table in the source is
ASCII, so the two agree on all strings the tables are compared against.
-/

/-- The fixed denylist of binary file extensions (`BINARY_EXTENSIONS` in the
source). -/
def BINARY_EXTENSIONS : List String :=
  [".png", ".jpg", ".jpeg", ".gif", ".webp", ".bmp", ".svg", ".ico",
   ".pdf", ".zip", ".tar", ".gz", ".bz2", ".xz", ".7z", ".rar",
   ".mp3", ".mp4", ".mov", ".avi", ".mkv", ".wav", ".ogg", ".flac",
   ".ttf", ".otf", ".eot", ".woff", ".woff2",
   ".so", ".dll", ".dylib", ".class", ".jar", ".exe", ".bin"]

/-- The extension-to-minifier table (`MINIFIABLE_EXTENSIONS` in the source). -/
def MINIFIABLE_EXTENSIONS : List (String × String) :=
  [(".py", "python"), (".json", "json"), (".js", "javascript"),
   (".css", "css"), (".html", "html"), (".htm", "html")]

/-- Python's `str.lower`, restricted to the ASCII case mapping. -/
def pyLower (s : String) : String := String.mk (s.data.map Char.toLower)

/-- Python's substring test `pat in s`, over character lists. -/
def containsSub (pat : List Char) (s : List Char) : Bool :=
  s.tails.any (fun t => pat.isPrefixOf t)

deriving instance DecidableEq for Except

/-- The outcome of `path.stat().st_size` for one path.  `decide_file` handles
`FileNotFoundError`; any other `OSError` (for example `PermissionError` when a
parent directory denies search permission) is a distinct outcome because the
source catches only `FileNotFoundError`. -/
inductive StatResult where
  | size (n : Nat)
  | fileNotFound
  | otherError
deriving DecidableEq

/-- The on-disk state one candidate path presents to the pipeline:
its slash-separated path relative to the repository root, its `path.suffix`,
the outcome of `stat`, the bytes `open("rb").read(8192)` returns (`none` when
opening or reading raises), and the outcome of `read_text`
(`Except.error msg` when reading raises, carrying `str(e)`). -/
structure PathState where
  rel : String
  suffix : String
  stat : StatResult
  readData : Option (List Nat)
  fullText : Except String String
deriving DecidableEq

/-- The decision record (`RenderDecision` in the source).  The source's field
`include` is a Lean keyword, so it is called `included` here. -/
structure RenderDecision where
  included : Bool
  reason : String
deriving DecidableEq

/-- The classified file record (`FileInfo` in the source).  The source stores
`path : pathlib.Path`; the embedding keeps what downstream code reads through
that handle: the suffix and the `read_text` outcome. -/
structure FileInfo where
  suffix : String
  fullText : Except String String
  rel : String
  size : Nat
  decision : RenderDecision
deriving DecidableEq

/-- Whether a byte is a UTF-8 continuation byte. -/
def utf8Cont (b : Nat) : Bool := 128 ≤ b && b ≤ 191

/-- Whether a byte list is valid UTF-8, the success condition of
`data.decode("utf-8")` for the bytes actually read. -/
def utf8Valid : List Nat → Bool
  | [] => true
  | b :: r =>
    if b ≤ 127 then utf8Valid r
    else if 194 ≤ b && b ≤ 223 then
      match r with
      | c :: r => utf8Cont c && utf8Valid r
      | [] => false
    else if b = 224 then
      match r with
      | c :: d :: r => (160 ≤ c && c ≤ 191) && utf8Cont d && utf8Valid r
      | _ => false
    else if 225 ≤ b && b ≤ 236 then
      match r with
      | c :: d :: r => utf8Cont c && utf8Cont d && utf8Valid r
      | _ => false
    else if b = 237 then
      match r with
      | c :: d :: r => (128 ≤ c && c ≤ 159) && utf8Cont d && utf8Valid r
      | _ => false
    else if 238 ≤ b && b ≤ 239 then
      match r with
      | c :: d :: r => utf8Cont c && utf8Cont d && utf8Valid r
      | _ => false
    else if b = 240 then
      match r with
      | c :: d :: e :: r => (144 ≤ c && c ≤ 191) && utf8Cont d && utf8Cont e && utf8Valid r
      | _ => false
    else if 241 ≤ b && b ≤ 243 then
      match r with
      | c :: d :: e :: r => utf8Cont c && utf8Cont d && utf8Cont e && utf8Valid r
      | _ => false
    else if b = 244 then
      match r with
      | c :: d :: e :: r => (128 ≤ c && c ≤ 143) && utf8Cont d && utf8Cont e && utf8Valid r
      | _ => false
    else false

/-- The binary heuristic `looks_binary`: extension denylist first, then the
first-chunk NUL and UTF-8 checks; a path that cannot be opened or read is
treated as binary (the source's catch-all `except`). -/
def looks_binary (p : PathState) : Bool :=
  if BINARY_EXTENSIONS.contains (pyLower p.suffix) then true
  else
    match p.readData with
    | none => true
    | some data =>
      if data.contains 0 then true
      else if utf8Valid data then false else true

/-- The VCS-metadata test of `decide_file`:
`"/.git/" in f"/{rel}/" or rel.startswith(".git/")`. -/
def gitIgnored (rel : String) : Bool :=
  containsSub "/.git/".data ("/" ++ rel ++ "/").data ||
    ".git/".data.isPrefixOf rel.data

/-- The size obtained by `decide_file`: `FileNotFoundError` degrades to 0,
any other stat failure propagates (`none`). -/
def statSize : StatResult → Option Nat
  | .size n => some n
  | .fileNotFound => some 0
  | .otherError => none

/-- The classifier `decide_file`.  `none` models an exception escaping the
call.  `max_bytes` comes from the command line as a Python `int`, so it is an
`Int` here. -/
def decide_file (p : PathState) (maxBytes : Int) : Option FileInfo :=
  (statSize p.stat).map (fun size =>
    if gitIgnored p.rel then
      ⟨p.suffix, p.fullText, p.rel, size, ⟨false, "ignored"⟩⟩
    else if maxBytes < (size : Int) then
      ⟨p.suffix, p.fullText, p.rel, size, ⟨false, "too_large"⟩⟩
    else if looks_binary p then
      ⟨p.suffix, p.fullText, p.rel, size, ⟨false, "binary"⟩⟩
    else
      ⟨p.suffix, p.fullText, p.rel, size, ⟨true, "ok"⟩⟩)

/-- The classification loop of `collect_files`: `decide_file` on each
candidate in order; an exception anywhere aborts the run (`none`). -/
def classify_list : List PathState → Int → Option (List FileInfo)
  | [], _ => some []
  | p :: rest, mb =>
    match decide_file p mb, classify_list rest mb with
    | some fi, some infos => some (fi :: infos)
    | _, _ => none

/-- The `rendered` bucket of `build_html` and `generate_cxml_text`:
records whose decision flag is set. -/
def renderedOf (infos : List FileInfo) : List FileInfo :=
  infos.filter (fun i => i.decision.included)

/-- The `skipped_binary` bucket of `build_html`. -/
def skippedBinary (infos : List FileInfo) : List FileInfo :=
  infos.filter (fun i => i.decision.reason == "binary")

/-- The `skipped_large` bucket of `build_html`. -/
def skippedLarge (infos : List FileInfo) : List FileInfo :=
  infos.filter (fun i => i.decision.reason == "too_large")

/-- The `skipped_ignored` bucket of `build_html`. -/
def skippedIgnored (infos : List FileInfo) : List FileInfo :=
  infos.filter (fun i => i.decision.reason == "ignored")

/-- Exhaustive description of a successful `decide_file` call: exactly one of
the four branches fired, and each branch records why the earlier ones did
not. -/
theorem decide_file_cases (p : PathState) (mb : Int) (fi : FileInfo)
    (h : decide_file p mb = some fi) :
    fi.suffix = p.suffix ∧ fi.fullText = p.fullText ∧ fi.rel = p.rel ∧
    statSize p.stat = some fi.size ∧
    ((gitIgnored p.rel = true ∧ fi.decision = ⟨false, "ignored"⟩) ∨
     (gitIgnored p.rel = false ∧ mb < (fi.size : Int) ∧
       fi.decision = ⟨false, "too_large"⟩) ∨
     (gitIgnored p.rel = false ∧ (fi.size : Int) ≤ mb ∧ looks_binary p = true ∧
       fi.decision = ⟨false, "binary"⟩) ∨
     (gitIgnored p.rel = false ∧ (fi.size : Int) ≤ mb ∧ looks_binary p = false ∧
       fi.decision = ⟨true, "ok"⟩)) := by
  unfold decide_file at h
  cases hs : statSize p.stat with
  | none => rw [hs] at h; exact absurd h (by simp)
  | some size =>
    rw [hs] at h
    simp only [Option.map_some'] at h
    rw [Option.some.injEq] at h
    split_ifs at h with hg hsz hb
    all_goals obtain rfl := h
    · exact ⟨rfl, rfl, rfl, rfl, Or.inl ⟨hg, rfl⟩⟩
    · exact ⟨rfl, rfl, rfl, rfl,
        Or.inr (Or.inl ⟨by simpa using hg, hsz, rfl⟩)⟩
    · exact ⟨rfl, rfl, rfl, rfl,
        Or.inr (Or.inr (Or.inl ⟨by simpa using hg, Int.not_lt.mp hsz, hb, rfl⟩))⟩
    · exact ⟨rfl, rfl, rfl, rfl,
        Or.inr (Or.inr (Or.inr
          ⟨by simpa using hg, Int.not_lt.mp hsz, by simpa using hb, rfl⟩))⟩

/-- C1: For every candidate path, classification applies a fixed precedence
with first match winning: a path under the VCS metadata directory is
classified ignored even if it is also oversized or binary-looking; only
non-ignored paths can be too_large, and only non-ignored, non-oversized paths
can be binary. -/
theorem decide_file_precedence (p : PathState) (mb : Int) (fi : FileInfo)
    (h : decide_file p mb = some fi) :
    (gitIgnored p.rel = true → fi.decision = ⟨false, "ignored"⟩) ∧
    (fi.decision.reason = "too_large" →
      gitIgnored p.rel = false ∧ mb < (fi.size : Int)) ∧
    (fi.decision.reason = "binary" →
      gitIgnored p.rel = false ∧ (fi.size : Int) ≤ mb ∧ looks_binary p = true) := by
  obtain ⟨_, _, _, _, hc⟩ := decide_file_cases p mb fi h
  rcases hc with ⟨hg, hd⟩ | ⟨hg, hlt, hd⟩ | ⟨hg, hle, hb, hd⟩ | ⟨hg, hle, hb, hd⟩ <;>
    refine ⟨?_, ?_, ?_⟩ <;> intro hx
  · exact hd
  · rw [hd] at hx; exact absurd hx (by decide)
  · rw [hd] at hx; exact absurd hx (by decide)
  · rw [hg] at hx; cases hx
  · exact ⟨hg, hlt⟩
  · rw [hd] at hx; exact absurd hx (by decide)
  · rw [hg] at hx; cases hx
  · rw [hd] at hx; exact absurd hx (by decide)
  · exact ⟨hg, hle, hb⟩
  · rw [hg] at hx; cases hx
  · rw [hd] at hx; exact absurd hx (by decide)
  · rw [hd] at hx; exact absurd hx (by decide)

/-- Concrete instance for `decide_file_precedence`: a path under `.git/` that
is also oversized and binary-looking is still classified ignored. -/
def pIgnoredW : PathState := ⟨".git/big.png", ".png", .size 99999, some [0], .ok ""⟩

/-- The record `decide_file` produces for `pIgnoredW`. -/
def fiIgnoredW : FileInfo := ⟨".png", .ok "", ".git/big.png", 99999, ⟨false, "ignored"⟩⟩

/-- Witness for C1 at a concrete oversized, binary-looking `.git` path. -/
theorem decide_file_precedence_witness :
    (gitIgnored pIgnoredW.rel = true → fiIgnoredW.decision = ⟨false, "ignored"⟩) ∧
    (fiIgnoredW.decision.reason = "too_large" →
      gitIgnored pIgnoredW.rel = false ∧ (10 : Int) < (fiIgnoredW.size : Int)) ∧
    (fiIgnoredW.decision.reason = "binary" →
      gitIgnored pIgnoredW.rel = false ∧ (fiIgnoredW.size : Int) ≤ (10 : Int) ∧
        looks_binary pIgnoredW = true) :=
  decide_file_precedence pIgnoredW 10 fiIgnoredW (by decide)

/-- C2: For every non-ignored file, classification marks it too_large exactly
when its resolved byte size is strictly greater than maxBytes; a file whose
size exactly equals maxBytes is not too_large and is included when it also
passes the binary heuristic. -/
theorem decide_file_threshold (p : PathState) (mb : Int) (fi : FileInfo)
    (h : decide_file p mb = some fi) (hg : gitIgnored p.rel = false) :
    (fi.decision.reason = "too_large" ↔ mb < (fi.size : Int)) ∧
    ((fi.size : Int) = mb → looks_binary p = false → fi.decision = ⟨true, "ok"⟩) := by
  obtain ⟨_, _, _, _, hc⟩ := decide_file_cases p mb fi h
  rcases hc with ⟨hgi, hd⟩ | ⟨_, hlt, hd⟩ | ⟨_, hle, hb, hd⟩ | ⟨_, hle, hb, hd⟩
  · rw [hg] at hgi; cases hgi
  · refine ⟨⟨fun _ => hlt, fun _ => by rw [hd]⟩, fun he _ => ?_⟩
    exact absurd hlt (by omega)
  · refine ⟨⟨fun hx => ?_, fun hx => ?_⟩, fun _ hbf => ?_⟩
    · rw [hd] at hx; exact absurd hx (by decide)
    · exact absurd hx (by omega)
    · rw [hbf] at hb; cases hb
  · refine ⟨⟨fun hx => ?_, fun hx => ?_⟩, fun _ _ => hd⟩
    · rw [hd] at hx; exact absurd hx (by decide)
    · exact absurd hx (by omega)

/-- Concrete boundary instance: a clean text file whose size equals the
limit exactly. -/
def pEqW : PathState := ⟨"eq.txt", ".txt", .size 7, some [104, 105], .ok "hi"⟩

/-- The record `decide_file` produces for `pEqW` with the limit 7. -/
def fiEqW : FileInfo := ⟨".txt", .ok "hi", "eq.txt", 7, ⟨true, "ok"⟩⟩

/-- Witness for C2 at the exact-size boundary: size 7 with limit 7 is
included. -/
theorem decide_file_threshold_witness :
    (fiEqW.decision.reason = "too_large" ↔ (7 : Int) < (fiEqW.size : Int)) ∧
    ((fiEqW.size : Int) = (7 : Int) → looks_binary pEqW = false →
      fiEqW.decision = ⟨true, "ok"⟩) :=
  decide_file_threshold pEqW 7 fiEqW (by decide) (by decide)

/-- C3 counterexample: a path whose `stat` fails with an error other than
`FileNotFoundError` (for example `PermissionError`) makes the classifier
raise: the exception escapes `decide_file` instead of degrading to size 0. -/
def pStatErrW : PathState := ⟨"locked/a.txt", ".txt", .otherError, some [104], .ok "h"⟩

/-- The claim that no exception escapes classification is false: with a
non-FileNotFoundError stat failure, `decide_file` propagates the exception. -/
theorem decide_file_stat_error_cex : decide_file pStatErrW 100 = none := rfl

/-- C3 (amended): Classification of a single file raises no exception
provided obtaining the size does not fail with an error other than
file-not-found (the source handles only `FileNotFoundError`, as size 0); a
file that cannot be opened or read is classified binary rather than aborting
the run. -/
theorem decide_file_no_raise_amended (p : PathState) (mb : Int)
    (h : p.stat ≠ StatResult.otherError) :
    ∃ fi, decide_file p mb = some fi ∧
      (p.stat = StatResult.fileNotFound → fi.size = 0) ∧
      (p.readData = none → gitIgnored p.rel = false → (fi.size : Int) ≤ mb →
        fi.decision = ⟨false, "binary"⟩) := by
  have hlb : p.readData = none → looks_binary p = true := by
    intro hrd; unfold looks_binary; rw [hrd]; split <;> rfl
  obtain ⟨n, hn⟩ : ∃ n, statSize p.stat = some n := by
    cases hp : p.stat with
    | size m => exact ⟨m, rfl⟩
    | fileNotFound => exact ⟨0, rfl⟩
    | otherError => exact absurd hp h
  obtain ⟨fi, hfi⟩ : ∃ fi, decide_file p mb = some fi := by
    unfold decide_file; rw [hn]; exact ⟨_, rfl⟩
  obtain ⟨_, _, _, hsz, hc⟩ := decide_file_cases p mb fi hfi
  refine ⟨fi, hfi, ?_, ?_⟩
  · intro hfnf
    have h0 : statSize p.stat = some 0 := by rw [hfnf]; rfl
    rw [h0] at hsz
    exact ((Option.some.injEq _ _).mp hsz).symm
  · intro hrd hgf hle
    have hb := hlb hrd
    rcases hc with ⟨hgi, _⟩ | ⟨_, hlt, _⟩ | ⟨_, _, _, hd⟩ | ⟨_, _, hbf, _⟩
    · rw [hgf] at hgi; cases hgi
    · exact absurd hlt (by omega)
    · exact hd
    · rw [hbf] at hb; cases hb

/-- Concrete instance for the amended C3: a missing, unreadable file. -/
def pMissingW : PathState := ⟨"gone.txt", ".txt", .fileNotFound, none, .error "denied"⟩

/-- Witness for the amended C3: a missing unreadable file classifies with
size 0 and, being unreadable, as binary. -/
theorem decide_file_no_raise_amended_witness :
    ∃ fi, decide_file pMissingW 5 = some fi ∧
      (pMissingW.stat = StatResult.fileNotFound → fi.size = 0) ∧
      (pMissingW.readData = none → gitIgnored pMissingW.rel = false →
        (fi.size : Int) ≤ (5 : Int) → fi.decision = ⟨false, "binary"⟩) :=
  decide_file_no_raise_amended pMissingW 5 (by decide)

/-- C10: For every record produced by classification, the included flag is
true exactly when the reason is "ok", so filtering by flag and filtering by
reason select the same records. -/
theorem included_iff_reason_ok (p : PathState) (mb : Int) (fi : FileInfo)
    (h : decide_file p mb = some fi) :
    fi.decision.included = true ↔ fi.decision.reason = "ok" := by
  obtain ⟨_, _, _, _, hc⟩ := decide_file_cases p mb fi h
  rcases hc with ⟨_, hd⟩ | ⟨_, _, hd⟩ | ⟨_, _, _, hd⟩ | ⟨_, _, _, hd⟩ <;>
    rw [hd] <;> decide

/-- Concrete instance for C10: a binary-extension file. -/
def pBinW : PathState := ⟨"img.png", ".png", .size 3, some [1], .ok ""⟩

/-- The record `decide_file` produces for `pBinW`. -/
def fiBinW : FileInfo := ⟨".png", .ok "", "img.png", 3, ⟨false, "binary"⟩⟩

/-- Witness for C10 at a concrete skipped binary file. -/
theorem included_iff_reason_ok_witness :
    fiBinW.decision.included = true ↔ fiBinW.decision.reason = "ok" :=
  included_iff_reason_ok pBinW 100 fiBinW (by decide)

/-- C4: classification assigns each candidate exactly one of the four
reasons, so the four buckets of `build_html` partition the candidate list:
their sizes sum to the number of candidates. -/
theorem classify_partition (ps : List PathState) (mb : Int) (infos : List FileInfo)
    (h : classify_list ps mb = some infos) :
    (renderedOf infos).length + (skippedBinary infos).length +
      (skippedLarge infos).length + (skippedIgnored infos).length = ps.length := by
  induction ps generalizing infos with
  | nil =>
    simp only [classify_list, Option.some.injEq] at h
    subst h
    simp [renderedOf, skippedBinary, skippedLarge, skippedIgnored]
  | cons p rest ih =>
    unfold classify_list at h
    cases hd : decide_file p mb with
    | none => rw [hd] at h; simp at h
    | some fi =>
      rw [hd] at h
      cases hr : classify_list rest mb with
      | none => rw [hr] at h; simp at h
      | some infos' =>
        rw [hr] at h
        simp only [Option.some.injEq] at h
        subst h
        have hsum := ih infos' hr
        obtain ⟨_, _, _, _, hc⟩ := decide_file_cases p mb fi hd
        rcases hc with ⟨_, hdd⟩ | ⟨_, _, hdd⟩ | ⟨_, _, _, hdd⟩ | ⟨_, _, _, hdd⟩ <;>
          simp [renderedOf, skippedBinary, skippedLarge, skippedIgnored,
            List.filter_cons, hdd] at hsum ⊢ <;> omega

/-- The end-to-end candidate list of the specification's scenario:
a readme, a source file, a VCS-internal file, and an oversized blob. -/
def psW : List PathState :=
  [⟨"README.md", ".md", .size 10, some [104, 105], .ok "hi"⟩,
   ⟨"src/a.py", ".py", .size 20, some [112], .ok "p"⟩,
   ⟨".git/config", "", .size 5, some [], .ok ""⟩,
   ⟨"big.bin", ".bin", .size 60000, some [0], .ok ""⟩]

/-- The classification of `psW` with the limit 51200. -/
def infosW : List FileInfo :=
  [⟨".md", .ok "hi", "README.md", 10, ⟨true, "ok"⟩⟩,
   ⟨".py", .ok "p", "src/a.py", 20, ⟨true, "ok"⟩⟩,
   ⟨"", .ok "", ".git/config", 5, ⟨false, "ignored"⟩⟩,
   ⟨".bin", .ok "", "big.bin", 60000, ⟨false, "too_large"⟩⟩]

/-- Witness for C4 on the specification's four-file scenario. -/
theorem classify_partition_witness :
    (renderedOf infosW).length + (skippedBinary infosW).length +
      (skippedLarge infosW).length + (skippedIgnored infosW).length = psW.length :=
  classify_partition psW 51200 infosW (by decide)

/-- The optional external minifier modules as `minify_code` sees them: a
module may be absent (`ImportError` made it `None`), and a present module's
minify call may raise (`none` result).  `jsonMinify` is the standard-library
round trip `json.dumps(json.loads(text), separators)`; its `none` is a
`JSONDecodeError` on malformed input. -/
structure MinifyEnv where
  python_minifier : Option (String → Option String)
  rjsmin : Option (String → Option String)
  rcssmin : Option (String → Option String)
  htmlmin : Option (String → Option String)
  jsonMinify : String → Option String

/-- Applying one optional minifier module to a text: absent module or a
raising call both yield `none`. -/
def runMin (m : Option (String → Option String)) (text : String) : Option String :=
  m.bind (fun f => f text)

/-- The minifier `minify_code`: dispatch on
`MINIFIABLE_EXTENSIONS.get(ext.lower())`, with every failure path (module
absent, module raised, JSON did not parse) returning the original text.  The
if-chain mirrors the source's `if/elif` chain; a type whose module is absent
falls through every branch and reaches the final `return text`. -/
def minify_code (env : MinifyEnv) (text : String) (ext : String) : String :=
  let ty := MINIFIABLE_EXTENSIONS.lookup (pyLower ext)
  if ty = some "python" then (runMin env.python_minifier text).getD text
  else if ty = some "javascript" then (runMin env.rjsmin text).getD text
  else if ty = some "css" then (runMin env.rcssmin text).getD text
  else if ty = some "html" then (runMin env.htmlmin text).getD text
  else if ty = some "json" then (env.jsonMinify text).getD text
  else text

/-- The complete output of the strategy responsible for a minify type, when
it is available and succeeds. -/
def minifierOutput (env : MinifyEnv) (ty : String) (text : String) : Option String :=
  if ty = "python" then runMin env.python_minifier text
  else if ty = "javascript" then runMin env.rjsmin text
  else if ty = "css" then runMin env.rcssmin text
  else if ty = "html" then runMin env.htmlmin text
  else if ty = "json" then env.jsonMinify text
  else none

/-- C5: minify-for-corpus returns the text unchanged for every extension
outside the supported table, and whenever the responsible strategy is
unavailable, raises, or fails to parse; when the strategy succeeds the
result is its complete output, never a partial mix, and never an error. -/
theorem minify_code_fallback (env : MinifyEnv) (text ext : String) :
    (MINIFIABLE_EXTENSIONS.lookup (pyLower ext) = none →
      minify_code env text ext = text) ∧
    (∀ ty, MINIFIABLE_EXTENSIONS.lookup (pyLower ext) = some ty →
      minifierOutput env ty text = none → minify_code env text ext = text) ∧
    (∀ ty out, MINIFIABLE_EXTENSIONS.lookup (pyLower ext) = some ty →
      minifierOutput env ty text = some out → minify_code env text ext = out) := by
  refine ⟨fun hl => ?_, fun ty hl hfail => ?_, fun ty out hl hout => ?_⟩
  · unfold minify_code
    rw [hl]
    simp
  · unfold minify_code
    rw [hl]
    unfold minifierOutput at hfail
    split_ifs at hfail ⊢ with h1 h2 h3 h4 h5 <;>
      simp_all
  · unfold minify_code
    rw [hl]
    unfold minifierOutput at hout
    split_ifs at hout ⊢ with h1 h2 h3 h4 h5 <;>
      simp_all

/-- A minifier environment in which no module is installed and nothing
parses, the weakest environment the source tolerates. -/
def envNone : MinifyEnv := ⟨none, none, none, none, fun _ => none⟩

/-- Witness for C5: with no Python minifier installed, a .py file's text
comes back unchanged. -/
theorem minify_code_fallback_witness : minify_code envNone "x=1" ".py" = "x=1" :=
  (minify_code_fallback envNone "x=1" ".py").2.1 "python" (by decide) (by decide)

/-- One emitted corpus document of `generate_cxml_text`: its 1-based index
attribute, its source path and its content text. -/
structure CorpusDoc where
  index : Nat
  source : String
  content : String
deriving DecidableEq

/-- The content the serializer inlines for one included record: the text of
a successful read (minified on request), or the inlined failure message
`"Failed to read: " + str(e)` when reading raised. -/
def docContent (env : MinifyEnv) (minify : Bool) (i : FileInfo) : String :=
  match i.fullText with
  | .ok t => if minify then minify_code env t i.suffix else t
  | .error e => "Failed to read: " ++ e

/-- The document emitted for one included record at a given index. -/
def docOf (env : MinifyEnv) (minify : Bool) (idx : Nat) (i : FileInfo) : CorpusDoc :=
  ⟨idx, i.rel, docContent env minify i⟩

/-- The documents for a record list whose enumeration starts at `n`;
`enumerate(rendered, 1)` in the source is `docsAux env minify 1`. -/
def docsAux (env : MinifyEnv) (minify : Bool) (n : Nat) (l : List FileInfo) : List CorpusDoc :=
  (List.enumFrom n l).map (fun q => docOf env minify q.1 q.2)

/-- All documents `generate_cxml_text` emits for a classified record list:
one per included record, enumerated from 1. -/
def docsOf (env : MinifyEnv) (minify : Bool) (infos : List FileInfo) : List CorpusDoc :=
  docsAux env minify 1 (renderedOf infos)

/-- The six lines the serializer appends for one document. -/
def renderDocLines (d : CorpusDoc) : List String :=
  ["<document index=\"" ++ toString d.index ++ "\">",
   "<source>" ++ d.source ++ "</source>",
   "<document_content>",
   d.content,
   "</document_content>",
   "</document>"]

/-- The corpus serializer `generate_cxml_text`: the wrapping element, the
per-document lines in sequence, and the closing element, joined by
newlines.  (The source's unused `repo_dir` parameter is dropped.) -/
def generate_cxml_text (env : MinifyEnv) (minify : Bool) (infos : List FileInfo) : String :=
  String.intercalate "\n"
    ("<documents>" :: ((docsOf env minify infos).flatMap renderDocLines ++ ["</documents>"]))

/-- C6: corpus serialization emits one document per included record, in the
included-record order, with index attributes exactly the contiguous
sequence 1..N; records not marked included produce no document. -/
theorem cxml_index_contiguous (env : MinifyEnv) (minify : Bool) (infos : List FileInfo) :
    (docsOf env minify infos).map CorpusDoc.index =
      List.range' 1 (renderedOf infos).length ∧
    (docsOf env minify infos).map CorpusDoc.source =
      (renderedOf infos).map FileInfo.rel ∧
    generate_cxml_text env minify infos = String.intercalate "\n"
      ("<documents>" :: ((docsOf env minify infos).flatMap renderDocLines ++
        ["</documents>"])) := by
  refine ⟨?_, ?_, rfl⟩
  · unfold docsOf docsAux
    rw [List.map_map]
    have h1 : (CorpusDoc.index ∘ fun q : Nat × FileInfo => docOf env minify q.1 q.2)
        = Prod.fst := by
      funext q; rfl
    rw [h1, List.enumFrom_map_fst]
  · unfold docsOf docsAux
    rw [List.map_map]
    have h2 : (CorpusDoc.source ∘ fun q : Nat × FileInfo => docOf env minify q.1 q.2)
        = (FileInfo.rel ∘ Prod.snd) := by
      funext q; rfl
    rw [h2, ← List.map_map, List.enumFrom_map_snd]

/-- C7: a failure to read one included file's content substitutes the
inlined failure message as that document's content; the document is still
emitted with its index and source path, and the remaining documents follow
unchanged. -/
theorem cxml_read_failure_isolated (env : MinifyEnv) (minify : Bool)
    (infos pre post : List FileInfo) (i : FileInfo) (e : String)
    (hsplit : renderedOf infos = pre ++ i :: post)
    (he : i.fullText = Except.error e) :
    docsOf env minify infos =
      docsAux env minify 1 pre ++
        ⟨pre.length + 1, i.rel, "Failed to read: " ++ e⟩ ::
          docsAux env minify (pre.length + 2) post := by
  unfold docsOf
  rw [hsplit]
  unfold docsAux
  rw [List.enumFrom_append, List.map_append]
  have ha : 1 + pre.length = pre.length + 1 := by omega
  rw [ha]
  have hc : List.enumFrom (pre.length + 1) (i :: post) =
      (pre.length + 1, i) :: List.enumFrom (pre.length + 1 + 1) post := rfl
  rw [hc]
  simp only [List.map_cons]
  congr 1
  simp [docOf, docContent, he]

/-- A record whose content reads cleanly, for the C7 witness. -/
def fiReadOkW : FileInfo := ⟨".txt", .ok "alpha", "a.txt", 5, ⟨true, "ok"⟩⟩

/-- A record whose read raises, for the C7 witness. -/
def fiReadErrW : FileInfo := ⟨".txt", .error "boom", "b.txt", 5, ⟨true, "ok"⟩⟩

/-- Witness for C7: with an unreadable second file, the corpus still holds
both documents, the second carrying the inlined failure message. -/
theorem cxml_read_failure_isolated_witness :
    docsOf envNone false [fiReadOkW, fiReadErrW] =
      docsAux envNone false 1 [fiReadOkW] ++
        ⟨[fiReadOkW].length + 1, fiReadErrW.rel, "Failed to read: " ++ "boom"⟩ ::
          docsAux envNone false ([fiReadOkW].length + 2) [] :=
  cxml_read_failure_isolated envNone false [fiReadOkW, fiReadErrW]
    [fiReadOkW] [] fiReadErrW "boom" (by decide) rfl

/-- The per-character replacement of `slugify`: keep the character when
Python's `ch.isalnum()` holds or it is a dash or underscore, else emit a
dash.  The standard library's Unicode-aware `str.isalnum` is a parameter. -/
def slugChar (isalnum : Char → Bool) (ch : Char) : Char :=
  if isalnum ch || ch = '-' || ch = '_' then ch else '-'

/-- The anchor slug `slugify`: the per-character replacement applied to every
character in order, one output character per input character. -/
def slugify (isalnum : Char → Bool) (s : String) : String :=
  String.mk (s.data.map (slugChar isalnum))

/-- The replacement map is idempotent on characters: kept characters are
kept again, and the replacement dash is itself kept. -/
theorem slugChar_idem (isalnum : Char → Bool) (ch : Char) :
    slugChar isalnum (slugChar isalnum ch) = slugChar isalnum ch := by
  by_cases h : (isalnum ch || ch = '-' || ch = '_') = true
  · have hkeep : slugChar isalnum ch = ch := by unfold slugChar; rw [if_pos h]
    rw [hkeep]
    exact hkeep
  · have hdash : slugChar isalnum ch = '-' := by unfold slugChar; rw [if_neg h]
    rw [hdash]
    unfold slugChar
    apply ite_self

/-- C9: slugify maps each kept character (alphanumeric, dash, underscore) to
itself and every other character to a dash, position by position with no
collapsing and no case change, so output length equals input length; and
slugify is idempotent. -/
theorem slugify_spec (isalnum : Char → Bool) (s : String) :
    (slugify isalnum s).length = s.length ∧
    slugify isalnum (slugify isalnum s) = slugify isalnum s ∧
    (∀ n : Nat, (slugify isalnum s).data[n]? =
      (s.data[n]?).map (slugChar isalnum)) := by
  refine ⟨?_, ?_, ?_⟩
  · show (s.data.map (slugChar isalnum)).length = s.data.length
    simp only [List.length_map]
  · show String.mk ((s.data.map (slugChar isalnum)).map (slugChar isalnum)) =
      String.mk (s.data.map (slugChar isalnum))
    rw [List.map_map]
    congr 1
    exact List.map_congr_left (fun a _ => slugChar_idem isalnum a)
  · intro n
    simp [slugify, List.getElem?_map]

/-- One node of the nested tree `build_git_tree` assembles: the Python dict
maps a name to either a nested dict (directory) or `None` (file). -/
inductive Entry where
  | file (name : String)
  | dir (name : String) (children : List Entry)

/-- The key of a tree child, `kv[0]` of the dict item. -/
def entryName : Entry → String
  | .file n => n
  | .dir n _ => n

/-- Whether a tree child is a file, `kv[1] is None` of the dict item. -/
def entryIsFile : Entry → Bool
  | .file _ => true
  | .dir _ _ => false

/-- Python's code-point lexicographic order on strings, as a less-or-equal
test over character lists. -/
def charListLe : List Char → List Char → Bool
  | [], _ => true
  | _ :: _, [] => false
  | a :: as, b :: bs => if a = b then charListLe as bs else decide (a < b)

/-- The comparison `walk` sorts children by: the key
`(kv[1] is None, kv[0].lower())` compared lexicographically, so all
directories precede all files and each group is ordered by lowercased
name. -/
def childLe (x y : Entry) : Bool :=
  (!(entryIsFile x) && entryIsFile y) ||
    ((entryIsFile x == entryIsFile y) &&
      charListLe (pyLower (entryName x)).data (pyLower (entryName y)).data)

/-- The sorted child list of one tree level, `sorted(node.items(), key)`. -/
def sortChildren (es : List Entry) : List Entry := es.mergeSort childLe

theorem charListLe_total (as bs : List Char) :
    (charListLe as bs || charListLe bs as) = true := by
  induction as generalizing bs with
  | nil => simp [charListLe]
  | cons a as ih =>
    cases bs with
    | nil => simp [charListLe]
    | cons b bs =>
      by_cases hab : a = b
      · subst hab
        simpa [charListLe] using ih bs
      · have hba : ¬b = a := fun h => hab h.symm
        simp only [charListLe, if_neg hab, if_neg hba]
        rcases lt_or_gt_of_ne hab with h | h
        · simp [h]
        · simp [h]

theorem charListLe_trans (as bs cs : List Char) (h1 : charListLe as bs = true)
    (h2 : charListLe bs cs = true) : charListLe as cs = true := by
  induction as generalizing bs cs with
  | nil => simp [charListLe]
  | cons a as ih =>
    cases bs with
    | nil => simp [charListLe] at h1
    | cons b bs =>
      cases cs with
      | nil => simp [charListLe] at h2
      | cons c cs =>
        simp only [charListLe] at h1 h2 ⊢
        by_cases hab : a = b
        · subst hab
          rw [if_pos rfl] at h1
          by_cases hac : a = c
          · subst hac
            rw [if_pos rfl] at h2 ⊢
            exact ih bs cs h1 h2
          · rw [if_neg hac] at h2 ⊢
            exact h2
        · rw [if_neg hab] at h1
          have hab' : a < b := of_decide_eq_true h1
          by_cases hbc : b = c
          · subst hbc
            rw [if_neg hab]
            exact decide_eq_true hab'
          · rw [if_neg hbc] at h2
            have hbc' : b < c := of_decide_eq_true h2
            have hac' : a < c := lt_trans hab' hbc'
            rw [if_neg (ne_of_lt hac')]
            exact decide_eq_true hac'

theorem childLe_trans (x y z : Entry) (h1 : childLe x y = true)
    (h2 : childLe y z = true) : childLe x z = true := by
  unfold childLe at h1 h2 ⊢
  cases hx : entryIsFile x <;> cases hy : entryIsFile y <;>
    cases hz : entryIsFile z <;>
    rw [hx, hy] at h1 <;> rw [hy, hz] at h2 <;>
    simp at h1 h2 ⊢ <;>
    exact charListLe_trans _ _ _ h1 h2

theorem childLe_total (x y : Entry) : (childLe x y || childLe y x) = true := by
  unfold childLe
  cases hx : entryIsFile x <;> cases hy : entryIsFile y <;> simp <;>
    simpa using charListLe_total (pyLower (entryName x)).data (pyLower (entryName y)).data

/-- The emission loop inside `walk`, over one level's already-sorted
children: each child produces its connector line (last sibling gets the
terminal connector), and a directory recurses with the prefix extended by
a continuation or blank segment, sorting its own children on entry. -/
def walkItems (pfx : String) : List Entry → List String
  | [] => []
  | .file n :: rest =>
    (pfx ++ (if rest.isEmpty then "└── " else "├── ") ++ n) :: walkItems pfx rest
  | .dir n children :: rest =>
    (pfx ++ (if rest.isEmpty then "└── " else "├── ") ++ n) ::
      (walkItems (pfx ++ (if rest.isEmpty then "    " else "│   "))
          (sortChildren children) ++
        walkItems pfx rest)
termination_by l => sizeOf l
decreasing_by
  all_goals simp_wf
  all_goals first
    | omega
    | (have hperm : sizeOf (sortChildren children) = sizeOf children := by
        unfold sortChildren
        exact List.Perm.sizeOf_eq_sizeOf (List.mergeSort_perm children childLe)
       omega)

/-- One call of `walk`: sort the level's items, then emit them. -/
def walk (t : List Entry) (pfx : String) : List String :=
  walkItems pfx (sortChildren t)

/-- Looking a key up in one dict level. -/
def findEntry (es : List Entry) (nm : String) : Option Entry :=
  es.find? (fun e => entryName e == nm)

/-- Replacing the value stored at a key, preserving the level's insertion
order as a dict write does. -/
def replaceEntry (es : List Entry) (nm : String) (v : Entry) : List Entry :=
  es.map (fun e => if entryName e == nm then v else e)

/-- Inserting one split path into the nested tree, the body of the
`for path in tracked` loop: `setdefault` walks directory segments (adding
empty dicts at the end of a level for new names) and the final segment
becomes a leaf.  `none` models the `AttributeError` the source raises when a
directory segment was earlier inserted as a file (impossible for the
tracked-file lists git produces). -/
def insertPath : List Entry → List String → Option (List Entry)
  | es, [] => some es
  | es, [leaf] =>
    if (findEntry es leaf).isSome then some es
    else some (es ++ [Entry.file leaf])
  | es, d :: rest =>
    match findEntry es d with
    | some (Entry.dir _ children) =>
      (insertPath children rest).map (fun c => replaceEntry es d (Entry.dir d c))
    | some (Entry.file _) => none
    | none =>
      (insertPath ([] : List Entry) rest).map (fun c => es ++ [Entry.dir d c])

/-- The nested tree built from all tracked paths, each split on `/`. -/
def buildTree (paths : List String) : Option (List Entry) :=
  paths.foldlM (fun t p => insertPath t (p.splitOn "/")) []

/-- The tree renderer `build_git_tree`: the root name line followed by the
walk of the built tree, joined by newlines. -/
def build_git_tree (rootName : String) (paths : List String) : Option String :=
  (buildTree paths).map (fun t => String.intercalate "\n" (rootName :: walk t ""))

/-- C8: at every level the rendered children are ordered with all
subdirectories before all files and case-insensitively alphabetically
within each group, and tree rendering is deterministic: rendering the same
path list twice yields byte-identical text. -/
theorem tree_children_ordered :
    (∀ es : List Entry, (sortChildren es).Pairwise (fun x y =>
      (entryIsFile x = false ∨ entryIsFile y = true) ∧
      (entryIsFile x = entryIsFile y →
        charListLe (pyLower (entryName x)).data (pyLower (entryName y)).data = true))) ∧
    (∀ rootName paths, build_git_tree rootName paths = build_git_tree rootName paths) := by
  constructor
  · intro es
    have hs := @List.sorted_mergeSort Entry childLe childLe_trans childLe_total es
    refine hs.imp ?_
    intro x y h
    unfold childLe at h
    constructor
    · cases hx : entryIsFile x <;> cases hy : entryIsFile y <;>
        rw [hx, hy] at h <;> simp at h ⊢
    · intro hxy
      cases hx : entryIsFile x <;> cases hy : entryIsFile y <;>
        rw [hx, hy] at h <;> simp at h <;> first | exact h | (rw [hx, hy] at hxy; cases hxy)
  · intro rootName paths
    rfl
